import Mathlib

/-
  Verification development for the stock_skills screening core.

  Shallow embedding of src/core/sharpe.py and src/core/screening/technicals.py.

  Python floats are idealised as exact rationals (ℚ).  The transcendental
  functions np.log and np.sqrt are threaded through as explicit function
  parameters (log sq : ℚ → ℚ): every theorem below is universally
  quantified over them, so it holds in particular for the real logarithm
  and square root.  Where the source's IEEE special values (NaN, ±inf)
  are semantically load-bearing (the RSI pipeline), we use the type FF
  which models a float as a rational, +inf, -inf or NaN, with the IEEE
  comparison and arithmetic rules for the operations the source performs.
-/

namespace StockSkills

/-! ## Basic list statistics (numpy / pandas helpers) -/

/-- Arithmetic mean of a list of rationals (np.mean / Series.mean on a
nonempty list; on the empty list the source would produce NaN, callers
below only apply it to nonempty lists). -/
def listMean (l : List ℚ) : ℚ := l.sum / (l.length : ℚ)

/-- Sample variance with ddof = 1 (the square of np.std(x, ddof=1) and of
pandas rolling(..).std()). -/
def sampleVar (l : List ℚ) : ℚ :=
  ((l.map fun x => (x - listMean l) ^ 2).sum) / ((l.length : ℚ) - 1)

/-- np.diff: successive differences a[i+1] - a[i]. -/
def diffs (l : List ℚ) : List ℚ := List.zipWith (fun a b => b - a) l l.tail

/-- The trailing n elements of a list (python l[-n:] for n ≥ 1, n ≤ len). -/
def lastN (n : ℕ) (l : List ℚ) : List ℚ := l.drop (l.length - n)

/-- np.diff(np.log(prices)). -/
def logReturns (log : ℚ → ℚ) (prices : List ℚ) : List ℚ := diffs (prices.map log)

/-! ## sharpe.py : volatility and return estimation -/

/-- DEFAULT_RF = 0.005 (0.5% Japan default). -/
def DEFAULT_RF : ℚ := 0.005

/-- calculate_hv from sharpe.py: annualised historical volatility of the
most recent window+1 close prices; None (absent) when there are fewer
than window+1 prices or some used price is ≤ 0. -/
def calculate_hv (log sq : ℚ → ℚ) (close_prices : List ℚ) (window : ℕ) : Option ℚ :=
  if close_prices.length < window + 1 then none
  else
    let prices := lastN (window + 1) close_prices
    if prices.any (fun p => decide (p ≤ 0)) then none
    else some (sq (sampleVar (logReturns log prices)) * sq 252)

/-- calculate_upside_downside_vol from sharpe.py: same windowing as
calculate_hv; the strictly positive / strictly negative log returns are
separated, and each sub-volatility needs at least 2 observations. -/
def calculate_upside_downside_vol (log sq : ℚ → ℚ) (close_prices : List ℚ)
    (window : ℕ) : Option ℚ × Option ℚ :=
  if close_prices.length < window + 1 then (none, none)
  else
    let prices := lastN (window + 1) close_prices
    if prices.any (fun p => decide (p ≤ 0)) then (none, none)
    else
      let lr := logReturns log prices
      let up_returns := lr.filter (fun x => decide (0 < x))
      let down_returns := lr.filter (fun x => decide (x < 0))
      ((if up_returns.length < 2 then none
        else some (sq (sampleVar up_returns) * sq 252)),
       (if down_returns.length < 2 then none
        else some (sq (sampleVar down_returns) * sq 252)))

/-- calculate_expected_return from sharpe.py: sum of the three inputs,
each treated as 0 when absent. -/
def calculate_expected_return (eps_growth dividend_yield fcf_yield : Option ℚ) : ℚ :=
  let eg := match eps_growth with | some v => v | none => 0
  let dy := match dividend_yield with | some v => v | none => 0
  let fy := match fcf_yield with | some v => v | none => 0
  eg + dy + fy

/-- calculate_adjusted_sr from sharpe.py. -/
def calculate_adjusted_sr (expected_return rf : ℚ)
    (hv30 hv90 upside_vol downside_vol : Option ℚ) : Option ℚ :=
  match hv30 with
  | none => none
  | some h =>
    if h ≤ 0 then none
    else
      let sr := (expected_return - rf) / (h * 0.8)
      -- vol_trend: default 1.0 if hv90 not available
      let vol_trend := match hv90 with
        | some h90 => if 0 < h then h90 / h else 1
        | none => 1
      -- asymmetry: default 1.0 if either vol is unavailable
      let asymmetry := match upside_vol, downside_vol with
        | some u, some d => if 0 < d then min (u / d) 2 else 1
        | _, _ => 1
      some (sr * vol_trend * asymmetry)

/-! ## sharpe.py : the four boolean conditions -/

/-- check_low_volatility: condition 1, HV30 < threshold. -/
def check_low_volatility (hv30 : Option ℚ) (threshold : ℚ) : Bool :=
  match hv30 with
  | none => false
  | some h => decide (h < threshold)

/-- check_undervalued: condition 2, 0 < PER < per_max and 0 < PBR < pbr_max. -/
def check_undervalued (per pbr : Option ℚ) (per_max pbr_max : ℚ) : Bool :=
  match per, pbr with
  | some p, some b => decide (0 < p) && decide (p < per_max)
      && decide (0 < b) && decide (b < pbr_max)
  | _, _ => false

/-- check_financial_stability: condition 3.  Mirrors the guard sequence of
the source: equity_ratio, earnings quality, fcf, then the two sequential
EBITDA ifs (ratio check only when ebitda > 0; present-and-nonpositive
ebitda fails outright; absent ebitda skips the ratio check). -/
def check_financial_stability
    (equity_ratio operating_cf net_income fcf total_debt ebitda : Option ℚ) : Bool :=
  match equity_ratio with
  | none => false
  | some e =>
    if e ≤ 0.40 then false else
    match operating_cf, net_income with
    | some oc, some ni =>
      if oc ≤ ni then false else
      match fcf with
      | none => false
      | some f =>
        if f ≤ 0 then false else
        match ebitda with
        | some b =>
          if 0 < b then
            (if 3.0 ≤ (total_debt.getD 0) / b then false else true)
          else false
        | none => true
    | _, _ => false

/-- check_eps_growth: condition 4, eps_growth > 5%, revenue_growth > 0, roe > 8%. -/
def check_eps_growth (eps_growth revenue_growth roe : Option ℚ) : Bool :=
  match eps_growth with
  | none => false
  | some e =>
    if e ≤ 0.05 then false else
    match revenue_growth with
    | none => false
    | some r =>
      if r ≤ 0 then false else
      match roe with
      | none => false
      | some ro => if ro ≤ 0.08 then false else true

/-! ## Python dict model

The stock_detail argument is a python dict with string keys whose values
are floats, None, or (for "price_history") a list of floats.  Val models
the value space, Dict the dict (association list, first binding wins,
as dict.get).  A key that is missing and a key stored as None are both
read back as None by the source (it only ever uses .get), so dget
returns Val.none for both. -/

inductive Val where
  | num (q : ℚ)
  | list (l : List ℚ)
  | none
deriving DecidableEq

abbrev Dict := List (String × Val)

/-- Threshold dict for the sharpe framework: string keys to floats. -/
abbrev Thr := List (String × ℚ)

/-- First binding for a key, if any. -/
def dfind (d : Dict) (k : String) : Option Val :=
  (d.find? (fun p => p.1 == k)).map (fun p => p.2)

/-- dict.get(k): the stored value, or None when the key is missing. -/
def dget (d : Dict) (k : String) : Val := (dfind d k).getD Val.none

/-- The dict display expression of sharpe.py line 248,
pythons' brace-star-star stock_detail with "hv30" rebound: a FRESH dict
mapping k to v and every other key as in d.  The argument d is not
modified (Lean values are immutable; the point is that this is the
operation the source performs, not an in-place store). -/
def dUpdate (d : Dict) (k : String) (v : Val) : Dict := (k, v) :: d

/-- thresholds.get(k, default). -/
def tget (t : Thr) (k : String) (default : ℚ) : ℚ :=
  ((t.find? (fun p => p.1 == k)).map (fun p => p.2)).getD default

/-- Python truthiness of a stored value (None and 0 and empty list falsy). -/
def vTruthy : Val → Bool
  | Val.num q => decide (q ≠ 0)
  | Val.list l => !l.isEmpty
  | Val.none => false

/-- Python `a or b`: a when a is truthy, else b. -/
def vor (a b : Val) : Val := if vTruthy a then a else b

/-- Coerce a read value to the Optional[float] the checks receive.  A
list value in a scalar field would raise in the source; such ill-typed
dicts are outside the contract and map to absent here. -/
def toOptQ : Val → Option ℚ
  | Val.num q => some q
  | _ => Option.none

/-- Value stored by the dict display for an Optional[float] (None is
stored as None). -/
def optToVal : Option ℚ → Val
  | some q => Val.num q
  | Option.none => Val.none

/-! ### Field extraction (count_conditions_passed, lines 180-194) -/

def hv30Of (d : Dict) : Option ℚ := toOptQ (dget d "hv30")
def perOf (d : Dict) : Option ℚ := toOptQ (vor (dget d "trailingPE") (dget d "per"))
def pbrOf (d : Dict) : Option ℚ := toOptQ (vor (dget d "priceToBook") (dget d "pbr"))
def equity_ratioOf (d : Dict) : Option ℚ := toOptQ (dget d "equity_ratio")
def ocOf (d : Dict) : Option ℚ :=
  toOptQ (vor (dget d "operating_cashflow") (dget d "operatingCashflow"))
def niOf (d : Dict) : Option ℚ :=
  toOptQ (vor (vor (dget d "net_income_stmt") (dget d "netIncome")) (dget d "net_income"))
def fcfOf (d : Dict) : Option ℚ :=
  toOptQ (vor (vor (dget d "fcf") (dget d "free_cashflow")) (dget d "freeCashflow"))
def tdOf (d : Dict) : Option ℚ := toOptQ (vor (dget d "total_debt") (dget d "totalDebt"))
def ebitdaOf (d : Dict) : Option ℚ := toOptQ (dget d "ebitda")
def egOf (d : Dict) : Option ℚ := toOptQ (vor (dget d "earningsGrowth") (dget d "eps_growth"))
def rgOf (d : Dict) : Option ℚ := toOptQ (vor (dget d "revenueGrowth") (dget d "revenue_growth"))
def roeOf (d : Dict) : Option ℚ := toOptQ (vor (dget d "returnOnEquity") (dget d "roe"))

/-- The condition_details dict: 4 booleans plus the permanently
unevaluated catalyst (None). -/
structure CondDetails where
  low_volatility : Bool
  undervalued : Bool
  financial_stability : Bool
  eps_growth : Bool
  catalyst : Option Bool
deriving DecidableEq

/-- count_conditions_passed from sharpe.py. -/
def count_conditions_passed (stock_detail : Dict) (thresholds : Thr) : ℕ × CondDetails :=
  let hv_threshold := tget thresholds "hv_threshold" 0.25
  let per_max := tget thresholds "per_max" 15.0
  let pbr_max := tget thresholds "pbr_max" 1.5
  let c1 := check_low_volatility (hv30Of stock_detail) hv_threshold
  let c2 := check_undervalued (perOf stock_detail) (pbrOf stock_detail) per_max pbr_max
  let c3 := check_financial_stability (equity_ratioOf stock_detail) (ocOf stock_detail)
      (niOf stock_detail) (fcfOf stock_detail) (tdOf stock_detail) (ebitdaOf stock_detail)
  let c4 := check_eps_growth (egOf stock_detail) (rgOf stock_detail) (roeOf stock_detail)
  ([c1, c2, c3, c4].countP (fun b => b), ⟨c1, c2, c3, c4, Option.none⟩)

/-- calculate_condition_multiplier from sharpe.py: 4+ -> 1.0, 3 -> 0.8,
2 or less -> None (excluded). -/
def calculate_condition_multiplier (passed_count : ℕ) : Option ℚ :=
  if 4 ≤ passed_count then some 1.0
  else if passed_count = 3 then some 0.8
  else none

/-! ## sharpe.py : the orchestrator -/

/-- SharpeResult: the dict returned by compute_full_sharpe_score. -/
structure SharpeResult where
  expected_return : ℚ
  hv30 : Option ℚ
  hv90 : Option ℚ
  upside_vol : Option ℚ
  downside_vol : Option ℚ
  raw_sr : Option ℚ
  adjusted_sr : Option ℚ
  conditions_passed : ℕ
  condition_details : CondDetails
  condition_multiplier : ℚ
  final_score : Option ℚ
  fcf_yield : Option ℚ
  rf : ℚ
deriving DecidableEq

/-- stock_detail.get("price_history", []): a stored list is used, a
missing (or None-valued) key gives the empty default. -/
def price_historyOf (d : Dict) : List ℚ :=
  match dget d "price_history" with
  | Val.list l => l
  | _ => []

/-- Orchestrator field extraction, lines 251-252: "use our standard field
names". -/
def egOrchOf (d : Dict) : Option ℚ :=
  toOptQ (vor (dget d "eps_growth") (dget d "earnings_growth"))

def dyOf (d : Dict) : Option ℚ := toOptQ (dget d "dividend_yield")

/-- Orchestrator fcf extraction used for the fcf_yield fallback (line 257). -/
def fcfOrchOf (d : Dict) : Option ℚ :=
  toOptQ (vor (dget d "fcf") (dget d "free_cashflow"))

/-- fcf_yield: the provided value, or fcf / market_cap when both fcf and
market_cap are present and market_cap > 0, else absent (lines 255-262). -/
def fcfYieldOf (d : Dict) : Option ℚ :=
  match toOptQ (dget d "fcf_yield") with
  | some v => some v
  | Option.none =>
    match fcfOrchOf d, toOptQ (dget d "market_cap") with
    | some f, some m => if 0 < m then some (f / m) else none
    | _, _ => none

/-- compute_full_sharpe_score from sharpe.py (main entry point). -/
def compute_full_sharpe_score (log sq : ℚ → ℚ) (stock_detail : Dict)
    (thresholds : Thr) (rf : ℚ) : Option SharpeResult :=
  let price_history := price_historyOf stock_detail
  -- Step 1: volatility calculations
  let hv30 := calculate_hv log sq price_history 30
  let hv90 := calculate_hv log sq price_history 90
  let ud := calculate_upside_downside_vol log sq price_history 30
  -- Inject hv30 into (a copy of) stock_detail for count_conditions_passed
  let stock_detail_with_hv := dUpdate stock_detail "hv30" (optToVal hv30)
  -- Step 2 and 7: expected return, capped at 1.0
  let expected_return :=
    min (calculate_expected_return (egOrchOf stock_detail) (dyOf stock_detail)
          (fcfYieldOf stock_detail)) 1.0
  -- Step 3: raw and adjusted Sharpe ratio (absent when hv30 absent or ≤ 0)
  let raw_sr : Option ℚ :=
    match hv30 with
    | Option.none => none
    | some h => if h ≤ 0 then none else some ((expected_return - rf) / (h * 0.8))
  let adjusted_sr : Option ℚ :=
    match hv30 with
    | Option.none => none
    | some h =>
      if h ≤ 0 then none
      else calculate_adjusted_sr expected_return rf hv30 hv90 ud.1 ud.2
  -- Step 4: conditions and multiplier
  let cc := count_conditions_passed stock_detail_with_hv thresholds
  -- Steps 5-6: exclusion, final score
  match calculate_condition_multiplier cc.1 with
  | Option.none => none
  | some m =>
    some ⟨expected_return, hv30, hv90, ud.1, ud.2, raw_sr, adjusted_sr,
          cc.1, cc.2, m,
          (match adjusted_sr with
           | some a => some (a * m)
           | Option.none => none),
          fcfYieldOf stock_detail, rf⟩

/-! ## An IEEE-flavoured float value: rational, +inf, -inf or NaN

Only the operations the RSI pipeline performs are modelled: comparison,
negation, addition, subtraction and division, with the IEEE rules (NaN
is absorbing and incomparable; x/0 is ±inf for x ≠ 0 and NaN for 0/0;
finite/±inf is 0). -/

inductive FF where
  | num (q : ℚ)
  | pinf
  | ninf
  | nan
deriving DecidableEq

namespace FF

def isNan : FF → Bool
  | nan => true
  | _ => false

/-- IEEE less-than (false whenever either side is NaN). -/
def flt : FF → FF → Bool
  | nan, _ => false
  | _, nan => false
  | num a, num b => decide (a < b)
  | num _, pinf => true
  | num _, ninf => false
  | pinf, _ => false
  | ninf, ninf => false
  | ninf, _ => true

/-- IEEE less-or-equal (false whenever either side is NaN). -/
def fle : FF → FF → Bool
  | nan, _ => false
  | _, nan => false
  | num a, num b => decide (a ≤ b)
  | num _, pinf => true
  | num _, ninf => false
  | pinf, pinf => true
  | pinf, _ => false
  | ninf, _ => true

def fneg : FF → FF
  | num a => num (-a)
  | pinf => ninf
  | ninf => pinf
  | nan => nan

def fadd : FF → FF → FF
  | nan, _ => nan
  | _, nan => nan
  | num a, num b => num (a + b)
  | pinf, ninf => nan
  | ninf, pinf => nan
  | pinf, _ => pinf
  | _, pinf => pinf
  | ninf, _ => ninf
  | _, ninf => ninf

def fsub (a b : FF) : FF := fadd a (fneg b)

def fdiv : FF → FF → FF
  | nan, _ => nan
  | _, nan => nan
  | num a, num b =>
    if b = 0 then (if a = 0 then nan else if 0 < a then pinf else ninf)
    else num (a / b)
  | num _, pinf => num 0
  | num _, ninf => num 0
  | pinf, num b => if 0 ≤ b then pinf else ninf
  | ninf, num b => if 0 ≤ b then ninf else pinf
  | pinf, _ => nan
  | ninf, _ => nan

end FF

/-! ## Python round and its FF lift

round(x, nd) idealised over exact rationals: round half to even at nd
decimal places. -/

def pyRound (nd : ℕ) (q : ℚ) : ℚ :=
  let s : ℚ := q * 10 ^ nd
  let f : ℤ := ⌊s⌋
  let r : ℚ := s - (f : ℚ)
  if r < 1 / 2 then (f : ℚ) / 10 ^ nd
  else if 1 / 2 < r then ((f + 1 : ℤ) : ℚ) / 10 ^ nd
  else if f % 2 = 0 then (f : ℚ) / 10 ^ nd else ((f + 1 : ℤ) : ℚ) / 10 ^ nd

/-- round on a float value: NaN and infinities pass through. -/
def ffRound (nd : ℕ) : FF → FF
  | FF.num q => FF.num (pyRound nd q)
  | x => x

/-! ## technicals.py : RSI via Wilder smoothing -/

/-- pandas ewm(alpha, adjust=False).mean() recurrence after the seed. -/
def ewmGo (alpha prev : ℚ) : List ℚ → List ℚ
  | [] => []
  | y :: ys =>
    let v := (1 - alpha) * prev + alpha * y
    v :: ewmGo alpha v ys

/-- pandas ewm(alpha, adjust=False).mean() over a series with no missing
values: seeded at the first observation. -/
def ewmVals (alpha : ℚ) : List ℚ → List ℚ
  | [] => []
  | x :: xs => x :: ewmGo alpha x xs

/-- The gain series: delta = close.diff(); gain = delta.where(delta > 0, 0).
The first delta is NaN, whose where-condition is false, hence 0. -/
def gainsOf : List ℚ → List ℚ
  | [] => []
  | close => 0 :: (diffs close).map (fun d => if 0 < d then d else 0)

/-- The loss series: loss = (-delta).where(delta < 0, 0). -/
def lossesOf : List ℚ → List ℚ
  | [] => []
  | close => 0 :: (diffs close).map (fun d => if d < 0 then -d else 0)

/-- Wilder average gain at index i (the ewm value before min_periods
masking); out-of-range indices give 0 (never consulted there). -/
def avg_gain (close : List ℚ) (period : ℕ) (i : ℕ) : ℚ :=
  (ewmVals (1 / (period : ℚ)) (gainsOf close)).getD i 0

/-- Wilder average loss at index i (before min_periods masking). -/
def avg_loss (close : List ℚ) (period : ℕ) (i : ℕ) : ℚ :=
  (ewmVals (1 / (period : ℚ)) (lossesOf close)).getD i 0

/-- rsi = 100 - 100/(1 + avg_gain/avg_loss) carried out in float
arithmetic: a zero average loss with positive average gain produces
rs = +inf hence rsi = 100; a 0/0 produces NaN. -/
def ffRsiOf (g l : ℚ) : FF :=
  FF.fsub (FF.num 100)
    (FF.fdiv (FF.num 100) (FF.fadd (FF.num 1) (FF.fdiv (FF.num g) (FF.num l))))

/-- compute_rsi from technicals.py, as the elementwise series of length
len(close): positions with fewer than period observations are NaN
(min_periods = period), the rest apply the RSI formula to the Wilder
averages. -/
def compute_rsi (close : List ℚ) (period : ℕ) : List FF :=
  (List.range close.length).map (fun i =>
    if i + 1 < period then FF.nan
    else ffRsiOf (avg_gain close period i) (avg_loss close period i))

/-! ## technicals.py : thresholds, Bollinger band, report -/

/-- The (section = "technicals") threshold values consulted through th(),
one field per lookup, in source order.  th() returns the configured value
or the caller's literal default; detect_pullback_in_uptrend is therefore
parameterised by this record, and defaultTech is the all-defaults case. -/
structure TechThresholds where
  pullbackMin : ℚ
  pullbackMax : ℚ
  rsiRevLo : ℚ
  rsiRevHi : ℚ
  rsiDepLo : ℚ
  rsiDepHi : ℚ
  bbProx : ℚ
  volSurge : ℚ
  scRsiRev : ℚ
  scRsiDep : ℚ
  scBb : ℚ
  scVol : ℚ
  scPrice : ℚ
  bounceMin : ℚ

/-- The literal defaults of the th() calls in detect_pullback_in_uptrend. -/
def defaultTech : TechThresholds :=
  ⟨-0.20, -0.05, 25.0, 50.0, 25.0, 35.0, 1.02, 1.2, 40.0, 15.0, 25.0, 10.0, 10.0, 40.0⟩

/-- The bounce_details dict. -/
structure BounceDetails where
  rsiReversal : Bool
  rsiDepthBonus : Bool
  bbProximity : Bool
  volumeSurge : Bool
  priceReversal : Bool
  lookbackDay : ℕ
deriving DecidableEq

def defaultBD : BounceDetails := ⟨false, false, false, false, false, 0⟩

/-- The result dict of detect_pullback_in_uptrend.  volumeRatioVal is the
source's volume_ratio entry. -/
structure PullbackReport where
  uptrend : Bool
  is_pullback : Bool
  pullback_pct : ℚ
  bounce_signal : Bool
  bounce_score : ℚ
  bounce_details : BounceDetails
  rsi : FF
  volumeRatioVal : FF
  sma50 : FF
  sma200 : FF
  current_price : FF
  recent_high : FF
  all_conditions : Bool
deriving DecidableEq

/-- The canonical default report returned for insufficient data. -/
def defaultReport : PullbackReport :=
  ⟨false, false, 0.0, false, 0.0, defaultBD,
   FF.nan, FF.nan, FF.nan, FF.nan, FF.nan, FF.nan, false⟩

/-- Maximum of a nonempty list of rationals (Series.max over the last 60
closes); 0 for the empty list, which the guarded caller never passes. -/
def qMax : List ℚ → ℚ
  | [] => 0
  | x :: xs => xs.foldl max x

/-- The input DataFrame: Close and Volume columns. -/
structure Hist where
  close : List ℚ
  volume : List ℚ

/-- Rolling lower Bollinger band value at position p (20-period mean
minus 2 rolling sample standard deviations); NaN (none) while fewer than
20 observations exist. -/
def bbLowerAt (sq : ℚ → ℚ) (close : List ℚ) (p : ℕ) : Option ℚ :=
  if p + 1 < 20 then none
  else
    let win := (close.drop (p + 1 - 20)).take 20
    some (listMean win - 2.0 * sq (sampleVar win))

/-! ### The per-offset quantities of the bounce loop (idx = -1 - offset) -/

/-- rsi_series.iloc[idx]. -/
def dayRsi (hist : Hist) (o : ℕ) : FF :=
  (compute_rsi hist.close 14).getD (hist.close.length - 1 - o) FF.nan

/-- rsi_series.iloc[idx - 1] guarded by abs(idx - 1) < len(rsi_series). -/
def dayPrevRsi (hist : Hist) (o : ℕ) : FF :=
  if o + 2 < (compute_rsi hist.close 14).length then
    (compute_rsi hist.close 14).getD (hist.close.length - 2 - o) FF.nan
  else FF.nan

/-- close.iloc[idx] (in range whenever the loop's break guard passed). -/
def dayClose (hist : Hist) (o : ℕ) : ℚ :=
  hist.close.getD (hist.close.length - 1 - o) 0

/-- close.iloc[idx - 1] guarded by abs(idx - 1) < len(close); none is NaN. -/
def dayPrevClose (hist : Hist) (o : ℕ) : Option ℚ :=
  if o + 2 < hist.close.length then
    some (hist.close.getD (hist.close.length - 2 - o) 0)
  else none

/-- lower_band.iloc[idx] with the source's in-range and not-isnan guard;
none is NaN. -/
def dayLower (sq : ℚ → ℚ) (hist : Hist) (o : ℕ) : Option ℚ :=
  if o + 1 < hist.close.length then
    bbLowerAt sq hist.close (hist.close.length - 1 - o)
  else none

/-- The day-specific 5/20 volume ratio: python slice arithmetic
volume.iloc[max(0, n+idx-4) : n+idx+1] becomes ℕ-truncated subtraction;
none is NaN (guard abs(idx) < len(volume) failed or the 20-mean is not
positive). -/
def dayVolRatioOpt (hist : Hist) (o : ℕ) : Option ℚ :=
  let n := hist.volume.length
  if o + 1 < n then
    let v5 := listMean ((hist.volume.drop (n - o - 5)).take ((n - o) - (n - o - 5)))
    let v20 := listMean ((hist.volume.drop (n - o - 20)).take ((n - o) - (n - o - 20)))
    if 0 < v20 then some (v5 / v20) else none
  else none

/-- RSI reversal sub-condition: RSI in the reversal zone and rising. -/
def condRsiRev (t : TechThresholds) (hist : Hist) (o : ℕ) : Bool :=
  FF.fle (FF.num t.rsiRevLo) (dayRsi hist o)
    && FF.fle (dayRsi hist o) (FF.num t.rsiRevHi)
    && !(FF.isNan (dayPrevRsi hist o))
    && FF.flt (dayPrevRsi hist o) (dayRsi hist o)

/-- RSI depth bonus sub-condition. -/
def condRsiDep (t : TechThresholds) (hist : Hist) (o : ℕ) : Bool :=
  FF.fle (FF.num t.rsiDepLo) (dayRsi hist o)
    && FF.fle (dayRsi hist o) (FF.num t.rsiDepHi)

/-- Bollinger lower-band proximity sub-condition. -/
def condBb (sq : ℚ → ℚ) (t : TechThresholds) (hist : Hist) (o : ℕ) : Bool :=
  match dayLower sq hist o with
  | some lb => decide (0 < lb) && decide (dayClose hist o ≤ lb * t.bbProx)
  | none => false

/-- Volume surge sub-condition. -/
def condVol (t : TechThresholds) (hist : Hist) (o : ℕ) : Bool :=
  match dayVolRatioOpt hist o with
  | some r => decide (t.volSurge < r)
  | none => false

/-- Price reversal sub-condition: close > previous close. -/
def condPrice (hist : Hist) (o : ℕ) : Bool :=
  match dayPrevClose hist o with
  | some pc => decide (pc < dayClose hist o)
  | none => false

/-- The score of one lookback day: the sum of the configured point values
of the satisfied sub-conditions. -/
def dayScore (sq : ℚ → ℚ) (t : TechThresholds) (hist : Hist) (o : ℕ) : ℚ :=
  (if condRsiRev t hist o then t.scRsiRev else 0)
  + (if condRsiDep t hist o then t.scRsiDep else 0)
  + (if condBb sq t hist o then t.scBb else 0)
  + (if condVol t hist o then t.scVol else 0)
  + (if condPrice hist o then t.scPrice else 0)

/-- The bounce_details recorded when a day becomes the best so far. -/
def dayBD (sq : ℚ → ℚ) (t : TechThresholds) (hist : Hist) (o : ℕ) : BounceDetails :=
  ⟨condRsiRev t hist o, condRsiDep t hist o, condBb sq t hist o,
   condVol t hist o, condPrice hist o, o⟩

/-- The bounce lookback loop: scan offsets in order, break when an index
guard fails, keep a strictly greater day score as the new best. -/
def bounceLoop (f : ℕ → ℚ) (g : ℕ → BounceDetails) (brk : ℕ → Bool) :
    List ℕ → ℚ × BounceDetails → ℚ × BounceDetails
  | [], acc => acc
  | o :: rest, acc =>
    if brk o then acc
    else bounceLoop f g brk rest (if acc.1 < f o then (f o, g o) else acc)

/-- The loop of technicals.py lines 144-203 with its inputs filled in. -/
def bounceRes (sq : ℚ → ℚ) (t : TechThresholds) (hist : Hist) : ℚ × BounceDetails :=
  bounceLoop (dayScore sq t hist) (dayBD sq t hist)
    (fun o => decide (hist.close.length ≤ o + 1
        ∨ (compute_rsi hist.close 14).length ≤ o + 1))
    (List.range 5) (0, defaultBD)

/-- The main branch of detect_pullback_in_uptrend (≥ 200 bars). -/
def mainReport (sq : ℚ → ℚ) (t : TechThresholds) (hist : Hist) : PullbackReport :=
  let close := hist.close
  let volume := hist.volume
  let current_price := close.getD (close.length - 1) 0
  let current_sma50 := listMean (lastN 50 close)
  let current_sma200 := listMean (lastN 200 close)
  let current_rsi := (compute_rsi close 14).getD (close.length - 1) FF.nan
  -- Volume ratio: 5-day avg / 20-day avg (NaN while under 20 bars or
  -- when the 20-day mean is not positive)
  let vol5 : Option ℚ := if volume.length < 5 then none else some (listMean (lastN 5 volume))
  let vol20 : Option ℚ := if volume.length < 20 then none else some (listMean (lastN 20 volume))
  let vrat : FF :=
    match vol20 with
    | some v20 =>
      if 0 < v20 then
        (match vol5 with
         | some v5 => FF.num (v5 / v20)
         | none => FF.nan)
      else FF.nan
    | none => FF.nan
  let recent_high := qMax (lastN 60 close)
  let pullback_pct := if 0 < recent_high then (current_price - recent_high) / recent_high else 0.0
  let uptrend := decide (current_sma200 < current_price ∧ current_sma200 < current_sma50)
  let is_pullback := decide (t.pullbackMin ≤ pullback_pct ∧ pullback_pct ≤ t.pullbackMax
      ∧ current_sma200 < current_price)
  let res := bounceRes sq t hist
  let bounce_signal := decide (t.bounceMin ≤ res.1)
  ⟨uptrend, is_pullback, pyRound 4 pullback_pct, bounce_signal,
   pyRound 2 res.1, res.2, ffRound 2 current_rsi, ffRound 4 vrat,
   FF.num (pyRound 2 current_sma50), FF.num (pyRound 2 current_sma200),
   FF.num (pyRound 2 current_price), FF.num (pyRound 2 recent_high),
   uptrend && is_pullback && bounce_signal⟩

/-- detect_pullback_in_uptrend from technicals.py. -/
def detect_pullback_in_uptrend (sq : ℚ → ℚ) (t : TechThresholds) (hist : Hist) :
    PullbackReport :=
  if hist.close.length < 200 then defaultReport
  else mainReport sq t hist

/-! ## Theorems: C1, adjusted Sharpe ratio -/

/-- C1: calculate_adjusted_sr returns absent whenever hv30 is absent or
≤ 0, for every combination of the other inputs; otherwise it returns
raw_sr * vol_trend * asymmetry where raw_sr = (expected_return - rf) /
(hv30 * 0.8), vol_trend = hv90/hv30 when hv90 is present (else 1.0), and
asymmetry = min(upside_vol/downside_vol, 2.0) when both are present and
downside_vol > 0 (else 1.0). -/
theorem claim_C1 (er rf : ℚ) (hv30 hv90 uv dv : Option ℚ) :
    (calculate_adjusted_sr er rf hv30 hv90 uv dv = none ↔
      hv30 = none ∨ ∃ h, hv30 = some h ∧ h ≤ 0)
    ∧ ∀ h, hv30 = some h → 0 < h →
      calculate_adjusted_sr er rf hv30 hv90 uv dv =
        some ((er - rf) / (h * 0.8)
          * (match hv90 with | some h90 => h90 / h | none => 1)
          * (match uv, dv with
             | some u, some d => if 0 < d then min (u / d) 2 else 1
             | _, _ => 1)) := by
  constructor
  · cases hv30 with
    | none => simp [calculate_adjusted_sr]
    | some h =>
      simp only [calculate_adjusted_sr]
      split_ifs with hle
      · simp [hle]
      · simp [hle]
  · intro h hh hpos
    subst hh
    have h1 : ¬ h ≤ 0 := not_le.mpr hpos
    cases hv90 <;> simp [calculate_adjusted_sr, h1, hpos]

/-- Witness for C1 at a fully concrete input with hv30 = 1/4 > 0. -/
theorem claim_C1_witness :
    ((0 : ℚ) < 1 / 4) ∧
    calculate_adjusted_sr 1 (1 / 200) (some (1 / 4)) (some (1 / 2)) (some 1) (some (1 / 2)) =
      some ((1 - 1 / 200) / ((1 / 4 : ℚ) * 0.8)
        * ((1 / 2 : ℚ) / (1 / 4))
        * (if 0 < (1 / 2 : ℚ) then min ((1 : ℚ) / (1 / 2)) 2 else 1)) := by
  refine ⟨by norm_num, ?_⟩
  have h := (claim_C1 1 (1 / 200) (some (1 / 4)) (some (1 / 2)) (some 1)
      (some (1 / 2))).2 (1 / 4) rfl (by norm_num)
  simpa using h

/-! ## Theorems: C3, financial stability -/

/-- C3: the financial-stability condition holds iff equity_ratio present
and > 0.40, operating cash flow and net income present with oc > ni,
free cash flow present and > 0, and whenever EBITDA is present it is
positive with total_debt/EBITDA < 3.0 (missing total_debt as 0); absent
EBITDA skips the debt check.  The spec's two scenarios (ebitda absent
passes, ebitda = 0 fails) are included. -/
theorem claim_C3 :
    (∀ equity_ratio operating_cf net_income fcf total_debt ebitda : Option ℚ,
      check_financial_stability equity_ratio operating_cf net_income fcf
          total_debt ebitda = true ↔
        ((∃ e, equity_ratio = some e ∧ 0.40 < e)
         ∧ (∃ oc ni, operating_cf = some oc ∧ net_income = some ni ∧ ni < oc)
         ∧ (∃ f, fcf = some f ∧ 0 < f)
         ∧ (∀ b, ebitda = some b → 0 < b ∧ (total_debt.getD 0) / b < 3.0)))
    ∧ check_financial_stability (some 0.5) (some 100) (some 50) (some 10) (some 0) none = true
    ∧ check_financial_stability (some 0.5) (some 100) (some 50) (some 10) (some 0) (some 0) = false := by
  refine ⟨?_, by norm_num [check_financial_stability], by norm_num [check_financial_stability]⟩
  intro er oc ni f td eb
  cases er with
  | none => simp [check_financial_stability]
  | some e =>
    cases oc with
    | none => simp [check_financial_stability]
    | some ocv =>
      cases ni with
      | none => simp [check_financial_stability]
      | some niv =>
        cases f with
        | none => simp [check_financial_stability]
        | some fv =>
          cases eb with
          | none =>
            simp only [check_financial_stability]
            split_ifs with h1 h2 h3 <;>
              simp_all <;> constructor <;> intro <;> omega
          | some b =>
            simp only [check_financial_stability]
            split_ifs with h1 h2 h3 h4 h5 <;> simp_all <;> try constructor <;> try omega
            all_goals intro h <;> try linarith

/-! ## Theorems: C6, historical and asymmetric volatility -/

/-- C6: calculate_hv is absent iff there are fewer than window+1 prices
or some of the most recent window+1 prices is ≤ 0, and otherwise is the
sample standard deviation (ddof = 1) of the log returns of the most
recent window+1 prices times sqrt 252; calculate_upside_downside_vol
shares the windowing and positivity guard, partitions the log returns
into the strictly positive and strictly negative subsets, and each
sub-volatility is absent unless its subset has at least 2 elements. -/
theorem claim_C6 (log sq : ℚ → ℚ) (prices : List ℚ) (w : ℕ) :
    (calculate_hv log sq prices w = none ↔
      prices.length < w + 1 ∨ ∃ p ∈ lastN (w + 1) prices, p ≤ 0)
    ∧ (w + 1 ≤ prices.length → (∀ p ∈ lastN (w + 1) prices, 0 < p) →
        calculate_hv log sq prices w =
          some (sq (sampleVar (logReturns log (lastN (w + 1) prices))) * sq 252))
    ∧ ((prices.length < w + 1 ∨ ∃ p ∈ lastN (w + 1) prices, p ≤ 0) →
        calculate_upside_downside_vol log sq prices w = (none, none))
    ∧ (w + 1 ≤ prices.length → (∀ p ∈ lastN (w + 1) prices, 0 < p) →
        calculate_upside_downside_vol log sq prices w =
          ((if ((logReturns log (lastN (w + 1) prices)).filter
                (fun x => decide (0 < x))).length < 2 then none
            else some (sq (sampleVar ((logReturns log (lastN (w + 1) prices)).filter
                (fun x => decide (0 < x)))) * sq 252)),
           (if ((logReturns log (lastN (w + 1) prices)).filter
                (fun x => decide (x < 0))).length < 2 then none
            else some (sq (sampleVar ((logReturns log (lastN (w + 1) prices)).filter
                (fun x => decide (x < 0)))) * sq 252)))) := by
  have hpos_any : ∀ (l : List ℚ), (∀ p ∈ l, 0 < p) →
      (l.any fun p => decide (p ≤ 0)) = false := by
    intro l hl
    rw [List.any_eq_false]
    intro p hp
    simpa using not_le.mpr (hl p hp)
  refine ⟨?_, ?_, ?_, ?_⟩
  · simp only [calculate_hv]
    split_ifs with h1 h2
    · simp [h1]
    · simp only [List.any_eq_true, decide_eq_true_eq] at h2
      simp [h1, h2]
    · simp only [List.any_eq_true, decide_eq_true_eq] at h2
      simp [h1, h2]
  · intro hlen hpos
    simp only [calculate_hv]
    rw [if_neg (not_lt.mpr hlen), if_neg (by simp [hpos_any _ hpos])]
  · intro hbad
    simp only [calculate_upside_downside_vol]
    by_cases hl : prices.length < w + 1
    · rw [if_pos hl]
    · rw [if_neg hl]
      rcases hbad with h1 | h2
      · exact absurd h1 hl
      · rw [if_pos (by simp only [List.any_eq_true, decide_eq_true_eq]; exact h2)]
  · intro hlen hpos
    simp only [calculate_upside_downside_vol]
    rw [if_neg (not_lt.mpr hlen), if_neg (by simp [hpos_any _ hpos])]

/-- Witness for C6 on prices [1,2,1,2] with window 3: hv present, upside
sub-volatility present (2 positive log returns), downside absent (1). -/
theorem claim_C6_witness :
    ((3 : ℕ) + 1 ≤ ([1, 2, 1, 2] : List ℚ).length
      ∧ ∀ p ∈ lastN 4 ([1, 2, 1, 2] : List ℚ), 0 < p)
    ∧ calculate_hv (fun x => x) (fun _ => 1) [1, 2, 1, 2] 3 = some 1
    ∧ calculate_upside_downside_vol (fun x => x) (fun _ => 1) [1, 2, 1, 2] 3
        = (some 1, none) := by
  have hlen : (3 : ℕ) + 1 ≤ ([1, 2, 1, 2] : List ℚ).length := by norm_num
  have hp : ∀ p ∈ lastN 4 ([1, 2, 1, 2] : List ℚ), 0 < p := by
    intro p hp
    simp only [lastN, List.length_cons, List.length_nil] at hp
    norm_num at hp
    rcases hp with rfl | rfl | rfl | rfl <;> norm_num
  refine ⟨⟨hlen, hp⟩, ?_, ?_⟩
  · rw [(claim_C6 (fun x => x) (fun _ => 1) [1, 2, 1, 2] 3).2.1 hlen hp]
    norm_num
  · rw [(claim_C6 (fun x => x) (fun _ => 1) [1, 2, 1, 2] 3).2.2.2 hlen hp]
    norm_num [logReturns, lastN, diffs]

/-! ## Theorems: C7, expected return and its cap -/

/-- C7: calculate_expected_return is the plain sum with absent inputs as
0 (itself uncapped), and the orchestrator stores expected_return capped
at 1.0; in particular 0.6 + 0.6 + 0 is stored as exactly 1.0. -/
theorem claim_C7 :
    (∀ a b c : Option ℚ, calculate_expected_return a b c = a.getD 0 + b.getD 0 + c.getD 0)
    ∧ (∀ log sq d thr rf r, compute_full_sharpe_score log sq d thr rf = some r →
        r.expected_return =
          min (calculate_expected_return (egOrchOf d) (dyOf d) (fcfYieldOf d)) 1.0)
    ∧ min (calculate_expected_return (some 0.6) (some 0.6) (some 0)) 1.0 = 1.0 := by
  refine ⟨?_, ?_, ?_⟩
  · intro a b c
    cases a <;> cases b <;> cases c <;> simp [calculate_expected_return]
  · intro log sq d thr rf r h
    simp only [compute_full_sharpe_score] at h
    split at h
    · exact absurd h (by simp)
    · cases h
      rfl
  · norm_num [calculate_expected_return]

/-- A concrete stock_detail passing conditions 2, 3 and 4 with an empty
price history, used by the orchestrator witnesses. -/
def dWit : Dict :=
  [("per", Val.num 10), ("pbr", Val.num 1), ("equity_ratio", Val.num (1/2)),
   ("operating_cashflow", Val.num 100), ("net_income", Val.num 50), ("fcf", Val.num 10),
   ("eps_growth", Val.num 0.6), ("revenue_growth", Val.num 0.1), ("roe", Val.num 0.1),
   ("dividend_yield", Val.num 0.6), ("fcf_yield", Val.num 0)]

/-- The SharpeResult the orchestrator produces on dWit: 3 conditions
pass, multiplier 0.8, all volatility figures absent, expected_return
capped at 1. -/
def rWit : SharpeResult :=
  ⟨1, none, none, none, none, none, none, 3, ⟨false, true, true, true, none⟩,
   0.8, none, some 0, DEFAULT_RF⟩

set_option maxHeartbeats 1000000 in
/-- Evaluation of the orchestrator on the witness input, staged through
the individual field extractions and condition checks. -/
theorem compute_dWit : compute_full_sharpe_score (fun _ => 0) (fun _ => 0) dWit [] DEFAULT_RF
    = some rWit := by
  have hph : price_historyOf dWit = [] := by simp [price_historyOf, dget, dfind, dWit]
  have h30 : calculate_hv (fun _ => (0 : ℚ)) (fun _ => (0 : ℚ)) [] 30 = none := by
    simp [calculate_hv]
  have h90 : calculate_hv (fun _ => (0 : ℚ)) (fun _ => (0 : ℚ)) [] 90 = none := by
    simp [calculate_hv]
  have hud : calculate_upside_downside_vol (fun _ => (0 : ℚ)) (fun _ => (0 : ℚ)) [] 30
      = (none, none) := by simp [calculate_upside_downside_vol]
  have heg : egOrchOf dWit = some 0.6 := by
    (simp [egOrchOf, dget, dfind, dWit, vor, vTruthy, toOptQ]; try norm_num)
  have hdy : dyOf dWit = some 0.6 := by (simp [dyOf, dget, dfind, dWit, toOptQ]; try norm_num)
  have hfy : fcfYieldOf dWit = some 0 := by (simp [fcfYieldOf, dget, dfind, dWit, toOptQ]; try norm_num)
  have her : min (calculate_expected_return (some 0.6) (some 0.6) (some 0)) 1.0 = 1 := by
    norm_num [calculate_expected_return]
  have e1 : hv30Of (dUpdate dWit "hv30" Val.none) = none := by
    (simp [hv30Of, dget, dfind, dUpdate, dWit, toOptQ]; try norm_num)
  have e2 : perOf (dUpdate dWit "hv30" Val.none) = some 10 := by
    (simp [perOf, dget, dfind, dUpdate, dWit, vor, vTruthy, toOptQ]; try norm_num)
  have e3 : pbrOf (dUpdate dWit "hv30" Val.none) = some 1 := by
    (simp [pbrOf, dget, dfind, dUpdate, dWit, vor, vTruthy, toOptQ]; try norm_num)
  have e4 : equity_ratioOf (dUpdate dWit "hv30" Val.none) = some (1 / 2) := by
    (simp [equity_ratioOf, dget, dfind, dUpdate, dWit, toOptQ]; try norm_num)
  have e5 : ocOf (dUpdate dWit "hv30" Val.none) = some 100 := by
    (simp [ocOf, dget, dfind, dUpdate, dWit, vor, vTruthy, toOptQ]; try norm_num)
  have e6 : niOf (dUpdate dWit "hv30" Val.none) = some 50 := by
    (simp [niOf, dget, dfind, dUpdate, dWit, vor, vTruthy, toOptQ]; try norm_num)
  have e7 : fcfOf (dUpdate dWit "hv30" Val.none) = some 10 := by
    (simp [fcfOf, dget, dfind, dUpdate, dWit, vor, vTruthy, toOptQ]; try norm_num)
  have e8 : tdOf (dUpdate dWit "hv30" Val.none) = none := by
    (simp [tdOf, dget, dfind, dUpdate, dWit, vor, vTruthy, toOptQ]; try norm_num)
  have e9 : ebitdaOf (dUpdate dWit "hv30" Val.none) = none := by
    (simp [ebitdaOf, dget, dfind, dUpdate, dWit, toOptQ]; try norm_num)
  have e10 : egOf (dUpdate dWit "hv30" Val.none) = some 0.6 := by
    (simp [egOf, dget, dfind, dUpdate, dWit, vor, vTruthy, toOptQ]; try norm_num)
  have e11 : rgOf (dUpdate dWit "hv30" Val.none) = some 0.1 := by
    (simp [rgOf, dget, dfind, dUpdate, dWit, vor, vTruthy, toOptQ]; try norm_num)
  have e12 : roeOf (dUpdate dWit "hv30" Val.none) = some 0.1 := by
    (simp [roeOf, dget, dfind, dUpdate, dWit, vor, vTruthy, toOptQ]; try norm_num)
  have hc1 : check_low_volatility none (tget [] "hv_threshold" 0.25) = false := by
    simp [check_low_volatility]
  have hc2 : check_undervalued (some 10) (some 1) (tget [] "per_max" 15.0)
      (tget [] "pbr_max" 1.5) = true := by norm_num [check_undervalued, tget]
  have hc3 : check_financial_stability (some (1 / 2)) (some 100) (some 50) (some 10)
      none none = true := by norm_num [check_financial_stability]
  have hc4 : check_eps_growth (some 0.6) (some 0.1) (some 0.1) = true := by
    norm_num [check_eps_growth]
  have hcc : count_conditions_passed (dUpdate dWit "hv30" Val.none) []
      = (3, ⟨false, true, true, true, Option.none⟩) := by
    simp only [count_conditions_passed, e1, e2, e3, e4, e5, e6, e7, e8, e9, e10, e11, e12,
      hc1, hc2, hc3, hc4]
    rfl
  simp only [compute_full_sharpe_score, hph, h30, h90, hud, optToVal, heg, hdy, hfy, her,
    hcc, calculate_condition_multiplier, rWit]
  norm_num

/-- Witness for C7: the orchestrator result on dWit exists and stores the
capped expected return, whose value is exactly 1. -/
theorem claim_C7_witness :
    ∃ r, compute_full_sharpe_score (fun _ => 0) (fun _ => 0) dWit [] DEFAULT_RF = some r
      ∧ r.expected_return
          = min (calculate_expected_return (egOrchOf dWit) (dyOf dWit) (fcfYieldOf dWit)) 1.0
      ∧ r.expected_return = 1 :=
  ⟨rWit, compute_dWit,
   claim_C7.2.1 (fun _ => 0) (fun _ => 0) dWit [] DEFAULT_RF rWit compute_dWit, rfl⟩

/-! ## Theorems: C2, condition multiplier and exclusion -/

/-- C2: the multiplier is 1.0 for count ≥ 4, 0.8 for count = 3, absent for
count ≤ 2 and never anything else; the orchestrator returns absent exactly
when this multiplier (on its own condition count) is absent, and otherwise
its final_score is adjusted_sr * multiplier when adjusted_sr is present
and absent when adjusted_sr is absent. -/
theorem claim_C2 :
    (∀ n : ℕ, 4 ≤ n → calculate_condition_multiplier n = some 1.0)
    ∧ calculate_condition_multiplier 3 = some 0.8
    ∧ (∀ n : ℕ, n ≤ 2 → calculate_condition_multiplier n = none)
    ∧ (∀ n m, calculate_condition_multiplier n = some m → m = 1.0 ∨ m = 0.8)
    ∧ (∀ log sq d thr rf,
        (compute_full_sharpe_score log sq d thr rf = none ↔
          calculate_condition_multiplier
            (count_conditions_passed
              (dUpdate d "hv30" (optToVal (calculate_hv log sq (price_historyOf d) 30)))
              thr).1 = none))
    ∧ (∀ log sq d thr rf r, compute_full_sharpe_score log sq d thr rf = some r →
        calculate_condition_multiplier
            (count_conditions_passed
              (dUpdate d "hv30" (optToVal (calculate_hv log sq (price_historyOf d) 30)))
              thr).1 = some r.condition_multiplier
        ∧ r.final_score = (match r.adjusted_sr with
            | some a => some (a * r.condition_multiplier)
            | none => none)) := by
  refine ⟨?_, ?_, ?_, ?_, ?_, ?_⟩
  · intro n hn
    simp [calculate_condition_multiplier, hn]
  · simp [calculate_condition_multiplier]
  · intro n hn
    have h4 : ¬ 4 ≤ n := by omega
    have h3 : n ≠ 3 := by omega
    simp [calculate_condition_multiplier, h4, h3]
  · intro n m h
    simp only [calculate_condition_multiplier] at h
    split_ifs at h <;> simp_all
  · intro log sq d thr rf
    simp only [compute_full_sharpe_score]
    split
    · simp_all
    · rename_i m hm
      simp [hm]
  · intro log sq d thr rf r h
    simp only [compute_full_sharpe_score] at h
    split at h
    · exact absurd h (by simp)
    · rename_i m hm
      cases h
      exact ⟨hm, rfl⟩

/-- Witness for C2: the multiplier mapping at counts 5, 3, 2, and the
orchestrator on dWit (3 conditions pass, multiplier 0.8, adjusted_sr
absent so final_score absent). -/
theorem claim_C2_witness :
    calculate_condition_multiplier 5 = some 1.0
    ∧ calculate_condition_multiplier 2 = none
    ∧ (∃ r, compute_full_sharpe_score (fun _ => 0) (fun _ => 0) dWit [] DEFAULT_RF = some r
        ∧ calculate_condition_multiplier
            (count_conditions_passed
              (dUpdate dWit "hv30"
                (optToVal (calculate_hv (fun _ => 0) (fun _ => 0) (price_historyOf dWit) 30)))
              []).1 = some r.condition_multiplier
        ∧ r.final_score = (match r.adjusted_sr with
            | some a => some (a * r.condition_multiplier)
            | none => none)) :=
  ⟨claim_C2.1 5 (by omega), claim_C2.2.2.1 2 (by omega),
   rWit, compute_dWit,
   claim_C2.2.2.2.2.2 (fun _ => 0) (fun _ => 0) dWit [] DEFAULT_RF rWit compute_dWit⟩

/-! ## Theorems: C4, zero-versus-absent through the or-chains -/

/-- Helper: condition 3 is false outright when net income is absent. -/
theorem check_fs_no_ni (er oc f td eb : Option ℚ) :
    check_financial_stability er oc none f td eb = false := by
  cases er with
  | none => rfl
  | some e =>
    simp only [check_financial_stability]
    split_ifs <;> cases oc <;> rfl

/-- The concrete snapshot refuting C4: net income supplied as exactly 0
under the "net_income" key (the LAST alternative of the or-chain), with
operating cash flow 100 > 0 and every other stability sub-check
satisfied.  Python's `a or b or c` returns its last operand when all are
falsy, so the 0 flows through unchanged, net income is NOT coerced to
absent, and the financial-stability condition passes. -/
def dC4 : Dict :=
  [("net_income", Val.num 0), ("equity_ratio", Val.num (1 / 2)),
   ("operating_cashflow", Val.num 100), ("fcf", Val.num 10)]

/-- Counterexample to C4 as stated: a snapshot with net_income = 0,
operating cash flow > 0 and the other stability sub-checks satisfied on
which the financial-stability condition evaluates to TRUE, not false. -/
theorem claim_C4_counterexample :
    niOf dC4 = some 0
    ∧ ocOf dC4 = some 100 ∧ (0 : ℚ) < 100
    ∧ (count_conditions_passed dC4 []).2.financial_stability = true := by
  have hni : niOf dC4 = some 0 := by
    (simp [niOf, dget, dfind, dC4, vor, vTruthy, toOptQ]; try norm_num)
  have hoc : ocOf dC4 = some 100 := by
    (simp [ocOf, dget, dfind, dC4, vor, vTruthy, toOptQ]; try norm_num)
  have he : equity_ratioOf dC4 = some (1 / 2) := by
    (simp [equity_ratioOf, dget, dfind, dC4, toOptQ]; try norm_num)
  have hf : fcfOf dC4 = some 10 := by
    (simp [fcfOf, dget, dfind, dC4, vor, vTruthy, toOptQ]; try norm_num)
  have htd : tdOf dC4 = none := by
    (simp [tdOf, dget, dfind, dC4, vor, vTruthy, toOptQ]; try norm_num)
  have heb : ebitdaOf dC4 = none := by
    (simp [ebitdaOf, dget, dfind, dC4, toOptQ]; try norm_num)
  have hc3 : check_financial_stability (some (1 / 2)) (some 100) (some 0) (some 10)
      none none = true := by norm_num [check_financial_stability]
  refine ⟨hni, hoc, by norm_num, ?_⟩
  simp only [count_conditions_passed, hni, hoc, he, hf, htd, heb, hc3]

/-- C4 amended: a 0 supplied under a NON-final alternative key of an
or-chain (with the later alternatives absent) is coerced to absent —
e.g. netIncome = 0 makes the financial-stability condition false even
though the direct call with net_income = 0 and operating_cf > 0 passes —
and the orchestrator's own chains (whose first keys are eps_growth and
fcf) coerce eps_growth = 0.0 and fcf = 0 to missing; but a 0 under the
FINAL key of a chain (e.g. "net_income") flows through as the value 0,
so the original universal statement fails there. -/
theorem claim_C4 :
    (∀ (d : Dict) (thr : Thr) (e oc f : ℚ),
      dget d "net_income_stmt" = Val.none → dget d "netIncome" = Val.num 0 →
      dget d "net_income" = Val.none →
      equity_ratioOf d = some e → 0.40 < e →
      ocOf d = some oc → 0 < oc →
      fcfOf d = some f → 0 < f →
      ebitdaOf d = none →
      niOf d = none
      ∧ (count_conditions_passed d thr).2.financial_stability = false
      ∧ check_financial_stability (equity_ratioOf d) (ocOf d) (some 0) (fcfOf d)
          (tdOf d) none = true)
    ∧ (∀ d : Dict, dget d "eps_growth" = Val.num 0 →
        dget d "earnings_growth" = Val.none → egOrchOf d = none)
    ∧ (∀ d : Dict, dget d "fcf" = Val.num 0 → dget d "free_cashflow" = Val.none →
        dget d "fcf_yield" = Val.none → fcfYieldOf d = none) := by
  refine ⟨?_, ?_, ?_⟩
  · intro d thr e oc f h1 h2 h3 he hegt hoc hocpos hf hfpos heb
    have hni : niOf d = none := by
      simp [niOf, h1, h2, h3, vor, vTruthy, toOptQ]
    refine ⟨hni, ?_, ?_⟩
    · simp only [count_conditions_passed, hni, check_fs_no_ni]
    · rw [he, hoc, hf]
      simp only [check_financial_stability]
      rw [if_neg (not_le.mpr hegt), if_neg (not_le.mpr hocpos), if_neg (not_le.mpr hfpos)]
  · intro d h1 h2
    simp [egOrchOf, h1, h2, vor, vTruthy, toOptQ]
  · intro d h1 h2 h3
    simp [fcfYieldOf, fcfOrchOf, h1, h2, h3, vor, vTruthy, toOptQ]

/-- The dict for the C4 witness: the same snapshot as dC4 but with the 0
net income supplied under the non-final "netIncome" key. -/
def dC4b : Dict :=
  [("netIncome", Val.num 0), ("equity_ratio", Val.num (1 / 2)),
   ("operating_cashflow", Val.num 100), ("fcf", Val.num 10)]

/-- Witness for C4 amended, at concrete snapshots. -/
theorem claim_C4_witness :
    (niOf dC4b = none
      ∧ (count_conditions_passed dC4b []).2.financial_stability = false
      ∧ check_financial_stability (equity_ratioOf dC4b) (ocOf dC4b) (some 0) (fcfOf dC4b)
          (tdOf dC4b) none = true)
    ∧ egOrchOf [("eps_growth", Val.num 0)] = none
    ∧ fcfYieldOf [("fcf", Val.num 0)] = none :=
  ⟨claim_C4.1 dC4b [] (1 / 2) 100 10
      (by simp [dget, dfind, dC4b])
      (by simp [dget, dfind, dC4b])
      (by simp [dget, dfind, dC4b])
      (by (simp [equity_ratioOf, dget, dfind, dC4b, toOptQ]; try norm_num))
      (by norm_num)
      (by (simp [ocOf, dget, dfind, dC4b, vor, vTruthy, toOptQ]; try norm_num))
      (by norm_num)
      (by (simp [fcfOf, dget, dfind, dC4b, vor, vTruthy, toOptQ]; try norm_num))
      (by norm_num)
      (by (simp [ebitdaOf, dget, dfind, dC4b, toOptQ]; try norm_num)),
   claim_C4.2.1 [("eps_growth", Val.num 0)]
      (by simp [dget, dfind]) (by simp [dget, dfind]),
   claim_C4.2.2 [("fcf", Val.num 0)]
      (by simp [dget, dfind]) (by simp [dget, dfind]) (by simp [dget, dfind])⟩

/-! ## Theorems: C10, the orchestrator never mutates its argument

The python function's only dict operations are .get reads and the dict
display on line 248, which builds a fresh dict.  compute_full_sharpe_scoreSt
is the same computation with the caller's store threaded explicitly
through every dict operation in source order; reads hand the store back
unchanged and the dict display produces a new value. -/

/-- A .get read: returns the store unchanged together with the value. -/
def dictGetSt (st : Dict) (k : String) : Dict × Val := (st, dget st k)

/-- The dict display: returns the store unchanged together with the
fresh updated dict value. -/
def dictCopyUpdateSt (st : Dict) (k : String) (v : Val) : Dict × Dict :=
  (st, dUpdate st k v)

/-- compute_full_sharpe_score with the caller's dict as explicit state. -/
def compute_full_sharpe_scoreSt (log sq : ℚ → ℚ) (st0 : Dict) (thresholds : Thr)
    (rf : ℚ) : Dict × Option SharpeResult :=
  let s1 := dictGetSt st0 "price_history"
  let price_history := match s1.2 with | Val.list l => l | _ => []
  let hv30 := calculate_hv log sq price_history 30
  let hv90 := calculate_hv log sq price_history 90
  let ud := calculate_upside_downside_vol log sq price_history 30
  let s2 := dictCopyUpdateSt s1.1 "hv30" (optToVal hv30)
  let stock_detail_with_hv := s2.2
  let s3 := dictGetSt s2.1 "eps_growth"
  let s4 := dictGetSt s3.1 "earnings_growth"
  let eps_growth := toOptQ (vor s3.2 s4.2)
  let s5 := dictGetSt s4.1 "dividend_yield"
  let dividend_yield := toOptQ s5.2
  let s6 := dictGetSt s5.1 "fcf_yield"
  let fyr : Dict × Option ℚ :=
    match toOptQ s6.2 with
    | some v => (s6.1, some v)
    | Option.none =>
      let s7 := dictGetSt s6.1 "fcf"
      let s8 := dictGetSt s7.1 "free_cashflow"
      let s9 := dictGetSt s8.1 "market_cap"
      (s9.1,
       match toOptQ (vor s7.2 s8.2), toOptQ s9.2 with
       | some f, some m => if 0 < m then some (f / m) else none
       | _, _ => none)
  let fcf_yield := fyr.2
  let expected_return :=
    min (calculate_expected_return eps_growth dividend_yield fcf_yield) 1.0
  let raw_sr : Option ℚ :=
    match hv30 with
    | Option.none => none
    | some h => if h ≤ 0 then none else some ((expected_return - rf) / (h * 0.8))
  let adjusted_sr : Option ℚ :=
    match hv30 with
    | Option.none => none
    | some h =>
      if h ≤ 0 then none
      else calculate_adjusted_sr expected_return rf hv30 hv90 ud.1 ud.2
  let cc := count_conditions_passed stock_detail_with_hv thresholds
  (fyr.1,
   match calculate_condition_multiplier cc.1 with
   | Option.none => none
   | some m =>
     some ⟨expected_return, hv30, hv90, ud.1, ud.2, raw_sr, adjusted_sr,
           cc.1, cc.2, m,
           (match adjusted_sr with
            | some a => some (a * m)
            | Option.none => none),
           fcf_yield, rf⟩)

/-- C10: the orchestrator leaves the caller's dict exactly as it was
(the hv30 injection happens on a fresh copy), while computing the same
result as the pure function. -/
theorem claim_C10 (log sq : ℚ → ℚ) (d : Dict) (thr : Thr) (rf : ℚ) :
    (compute_full_sharpe_scoreSt log sq d thr rf).1 = d
    ∧ (compute_full_sharpe_scoreSt log sq d thr rf).2
        = compute_full_sharpe_score log sq d thr rf := by
  constructor
  · simp only [compute_full_sharpe_scoreSt, dictGetSt, dictCopyUpdateSt]
    rcases h : toOptQ (dget d "fcf_yield") with _ | v <;> simp [h]
  · simp only [compute_full_sharpe_scoreSt, compute_full_sharpe_score, dictGetSt,
      dictCopyUpdateSt, egOrchOf, dyOf, fcfYieldOf, fcfOrchOf, price_historyOf]
    rcases h : toOptQ (dget d "fcf_yield") with _ | v <;> simp [h]

/-! ## Theorems: C5, short history gives the canonical default report -/

/-- C5: for fewer than 200 bars the Pullback Detector returns, without
raising, the canonical default report: all booleans false, pullback_pct
and bounce_score 0, lookback_day 0, every price/indicator field NaN. -/
theorem claim_C5 (sq : ℚ → ℚ) (t : TechThresholds) (hist : Hist)
    (h : hist.close.length < 200) :
    detect_pullback_in_uptrend sq t hist =
      ⟨false, false, 0.0, false, 0.0, ⟨false, false, false, false, false, 0⟩,
       FF.nan, FF.nan, FF.nan, FF.nan, FF.nan, FF.nan, false⟩ := by
  unfold detect_pullback_in_uptrend
  rw [if_pos h]
  rfl

/-- Witness for C5 on a one-bar history. -/
theorem claim_C5_witness :
    (Hist.mk [100] [1]).close.length < 200
    ∧ detect_pullback_in_uptrend (fun _ => 0) defaultTech (Hist.mk [100] [1]) =
      ⟨false, false, 0.0, false, 0.0, ⟨false, false, false, false, false, 0⟩,
       FF.nan, FF.nan, FF.nan, FF.nan, FF.nan, FF.nan, false⟩ :=
  ⟨by norm_num, claim_C5 (fun _ => 0) defaultTech (Hist.mk [100] [1]) (by norm_num)⟩

/-! ## Theorems: C9, RSI range and the zero-average-loss case -/

theorem ewmGo_nonneg (alpha : ℚ) (h0 : 0 ≤ alpha) (h1 : alpha ≤ 1) :
    ∀ (xs : List ℚ) (prev : ℚ), 0 ≤ prev → (∀ x ∈ xs, 0 ≤ x) →
      ∀ y ∈ ewmGo alpha prev xs, 0 ≤ y := by
  intro xs
  induction xs with
  | nil =>
    intro prev _ _ y hy
    simp [ewmGo] at hy
  | cons x rest ih =>
    intro prev hprev hxs y hy
    have hx : 0 ≤ x := hxs x (by simp)
    have hv : 0 ≤ (1 - alpha) * prev + alpha * x :=
      add_nonneg (mul_nonneg (by linarith) hprev) (mul_nonneg h0 hx)
    simp only [ewmGo, List.mem_cons] at hy
    rcases hy with rfl | hy
    · exact hv
    · exact ih ((1 - alpha) * prev + alpha * x) hv
        (fun z hz => hxs z (by simp [hz])) y hy

theorem ewmVals_nonneg (alpha : ℚ) (h0 : 0 ≤ alpha) (h1 : alpha ≤ 1)
    (xs : List ℚ) (hxs : ∀ x ∈ xs, 0 ≤ x) : ∀ y ∈ ewmVals alpha xs, 0 ≤ y := by
  cases xs with
  | nil => intro y hy; simp [ewmVals] at hy
  | cons x rest =>
    intro y hy
    have hx : 0 ≤ x := hxs x (by simp)
    simp only [ewmVals, List.mem_cons] at hy
    rcases hy with rfl | hy
    · exact hx
    · exact ewmGo_nonneg alpha h0 h1 rest x hx
        (fun z hz => hxs z (by simp [hz])) y hy

theorem getD_nonneg (l : List ℚ) (hl : ∀ x ∈ l, 0 ≤ x) (i : ℕ) : 0 ≤ l.getD i 0 := by
  rcases lt_or_ge i l.length with h | h
  · rw [List.getD_eq_getElem l 0 h]
    exact hl _ (List.getElem_mem h)
  · rw [List.getD_eq_default l 0 h]

theorem gainsOf_nonneg (close : List ℚ) : ∀ x ∈ gainsOf close, 0 ≤ x := by
  cases close with
  | nil => intro x hx; simp [gainsOf] at hx
  | cons c rest =>
    intro x hx
    simp only [gainsOf, List.mem_cons, List.mem_map] at hx
    rcases hx with rfl | ⟨d, _, rfl⟩
    · exact le_refl 0
    · split
      · linarith
      · exact le_refl 0

theorem lossesOf_nonneg (close : List ℚ) : ∀ x ∈ lossesOf close, 0 ≤ x := by
  cases close with
  | nil => intro x hx; simp [lossesOf] at hx
  | cons c rest =>
    intro x hx
    simp only [lossesOf, List.mem_cons, List.mem_map] at hx
    rcases hx with rfl | ⟨d, _, rfl⟩
    · exact le_refl 0
    · split
      · linarith
      · exact le_refl 0

theorem wilder_alpha_nonneg (period : ℕ) : 0 ≤ 1 / (period : ℚ) := by positivity

theorem wilder_alpha_le_one (period : ℕ) : 1 / (period : ℚ) ≤ 1 := by
  cases period with
  | zero => norm_num
  | succ n =>
    rw [div_le_one (by positivity)]
    exact_mod_cast Nat.one_le_iff_ne_zero.mpr (Nat.succ_ne_zero n)

theorem avg_gain_nonneg (close : List ℚ) (period i : ℕ) : 0 ≤ avg_gain close period i :=
  getD_nonneg _ (ewmVals_nonneg _ (wilder_alpha_nonneg period) (wilder_alpha_le_one period)
    _ (gainsOf_nonneg close)) i

theorem avg_loss_nonneg (close : List ℚ) (period i : ℕ) : 0 ≤ avg_loss close period i :=
  getD_nonneg _ (ewmVals_nonneg _ (wilder_alpha_nonneg period) (wilder_alpha_le_one period)
    _ (lossesOf_nonneg close)) i

/-- The RSI series at an in-range index. -/
theorem compute_rsi_getD (close : List ℚ) (period i : ℕ) (hi : i < close.length) :
    (compute_rsi close period).getD i FF.nan =
      if i + 1 < period then FF.nan
      else ffRsiOf (avg_gain close period i) (avg_loss close period i) := by
  simp only [compute_rsi]
  rw [List.getD_eq_getElem _ _ (by simpa using hi)]
  simp

/-- The RSI formula in float arithmetic when the average loss is
positive: a finite value in [0, 100). -/
theorem ffRsiOf_pos_loss (g l : ℚ) (hg : 0 ≤ g) (hl : 0 < l) :
    ffRsiOf g l = FF.num (100 - 100 / (1 + g / l))
    ∧ 0 ≤ 100 - 100 / (1 + g / l) ∧ 100 - 100 / (1 + g / l) ≤ 100 := by
  have hrs : 0 ≤ g / l := div_nonneg hg hl.le
  have hd : (0 : ℚ) < 1 + g / l := by linarith
  refine ⟨?_, ?_, ?_⟩
  · simp [ffRsiOf, FF.fdiv, FF.fadd, FF.fsub, FF.fneg, hl.ne', hd.ne']
    ring_nf
  · have : 100 / (1 + g / l) ≤ 100 := by
      apply div_le_self (by norm_num)
      linarith
    linarith
  · have : 0 < 100 / (1 + g / l) := div_pos (by norm_num) hd
    linarith

/-- The RSI formula in float arithmetic when the average loss is zero
and the average gain positive: rs is +inf and RSI saturates at 100. -/
theorem ffRsiOf_zero_loss (g : ℚ) (hg : 0 < g) : ffRsiOf g 0 = FF.num 100 := by
  simp [ffRsiOf, FF.fdiv, FF.fadd, FF.fsub, FF.fneg, hg.ne', hg]

/-- C9 amended: wherever the Wilder average loss is defined (index at
least period-1), a positive average loss gives a finite RSI in [0,100],
and a ZERO average loss gives RSI = 100 provided the average gain is
positive.  (As stated the claim also covered avg_gain = 0, where the
code produces NaN — see the counterexample.) -/
theorem claim_C9 (close : List ℚ) (period : ℕ) (hper : 1 ≤ period) (i : ℕ)
    (hi : i < close.length) (hdef : period ≤ i + 1) :
    (0 < avg_loss close period i →
      ∃ q, (compute_rsi close period).getD i FF.nan = FF.num q ∧ 0 ≤ q ∧ q ≤ 100)
    ∧ (avg_loss close period i = 0 → 0 < avg_gain close period i →
        (compute_rsi close period).getD i FF.nan = FF.num 100) := by
  have hrsi := compute_rsi_getD close period i hi
  rw [if_neg (by omega)] at hrsi
  have hg0 : 0 ≤ avg_gain close period i := avg_gain_nonneg close period i
  constructor
  · intro hl
    obtain ⟨heq, hb1, hb2⟩ := ffRsiOf_pos_loss _ _ hg0 hl
    exact ⟨_, by rw [hrsi, heq], hb1, hb2⟩
  · intro hl hg
    rw [hrsi, hl, ffRsiOf_zero_loss _ hg]

/-- A 15-bar constant close series: every delta is zero, so at index 14
(where the period-14 averages are defined) both Wilder averages are 0. -/
def flat15 : List ℚ :=
  [100, 100, 100, 100, 100, 100, 100, 100, 100, 100, 100, 100, 100, 100, 100]

/-- Counterexample to C9 as stated: on a flat series the average loss is
0 at a defined index yet the RSI value is NaN (0/0), not 100. -/
theorem claim_C9_counterexample :
    avg_loss flat15 14 14 = 0
    ∧ (compute_rsi flat15 14).getD 14 FF.nan = FF.nan := by
  have hl : avg_loss flat15 14 14 = 0 := by
    simp [avg_loss, flat15, lossesOf, diffs, ewmVals, ewmGo]
  have hg : avg_gain flat15 14 14 = 0 := by
    simp [avg_gain, flat15, gainsOf, diffs, ewmVals, ewmGo]
  have h := compute_rsi_getD flat15 14 14 (by norm_num [flat15])
  rw [if_neg (by omega), hl, hg] at h
  have hnan : ffRsiOf 0 0 = FF.nan := by
    simp [ffRsiOf, FF.fdiv, FF.fadd, FF.fsub, FF.fneg]
  exact ⟨hl, by rw [h, hnan]⟩

/-- Witness for C9 amended: both branches at concrete 3-bar series with
period 2 (avg loss 1/2 > 0 on [1,2,1]; avg loss 0 and avg gain 3/4 > 0
on [1,2,3]). -/
theorem claim_C9_witness :
    (0 < avg_loss [1, 2, 1] 2 2
      ∧ ∃ q, (compute_rsi [1, 2, 1] 2).getD 2 FF.nan = FF.num q ∧ 0 ≤ q ∧ q ≤ 100)
    ∧ (avg_loss [1, 2, 3] 2 2 = 0 ∧ 0 < avg_gain [1, 2, 3] 2 2
      ∧ (compute_rsi [1, 2, 3] 2).getD 2 FF.nan = FF.num 100) := by
  have hl1 : 0 < avg_loss [1, 2, 1] 2 2 := by
    norm_num [avg_loss, lossesOf, diffs, ewmVals, ewmGo]
  have hl2 : avg_loss [1, 2, 3] 2 2 = 0 := by
    norm_num [avg_loss, lossesOf, diffs, ewmVals, ewmGo]
  have hg2 : 0 < avg_gain [1, 2, 3] 2 2 := by
    norm_num [avg_gain, gainsOf, diffs, ewmVals, ewmGo]
  exact ⟨⟨hl1, (claim_C9 [1, 2, 1] 2 (by norm_num) 2 (by norm_num) (by norm_num)).1 hl1⟩,
    hl2, hg2, (claim_C9 [1, 2, 3] 2 (by norm_num) 2 (by norm_num) (by norm_num)).2 hl2 hg2⟩

/-! ## Theorems: C8, the bounce score search -/

theorem foldl_max_init_le (f : ℕ → ℚ) :
    ∀ (l : List ℕ) (a : ℚ), a ≤ l.foldl (fun b o => max b (f o)) a := by
  intro l
  induction l with
  | nil => intro a; simp
  | cons o rest ih =>
    intro a
    simp only [List.foldl_cons]
    exact le_trans (le_max_left a (f o)) (ih _)

theorem foldl_max_le (f : ℕ → ℚ) :
    ∀ (l : List ℕ) (a c : ℚ), a ≤ c → (∀ o ∈ l, f o ≤ c) →
      l.foldl (fun b o => max b (f o)) a ≤ c := by
  intro l
  induction l with
  | nil => intro a c h _; simpa using h
  | cons o rest ih =>
    intro a c ha hl
    simp only [List.foldl_cons]
    exact ih _ _ (max_le ha (hl o (by simp))) (fun p hp => hl p (by simp [hp]))

theorem le_foldl_max (f : ℕ → ℚ) :
    ∀ (l : List ℕ) (a : ℚ) (o : ℕ), o ∈ l →
      f o ≤ l.foldl (fun b p => max b (f p)) a := by
  intro l
  induction l with
  | nil => intro a o ho; simp at ho
  | cons p rest ih =>
    intro a o ho
    simp only [List.foldl_cons]
    rcases List.mem_cons.mp ho with rfl | ho
    · exact le_trans (le_max_right a (f o)) (foldl_max_init_le f rest _)
    · exact ih _ o ho

theorem foldl_max_int (f : ℕ → ℚ) :
    ∀ (l : List ℕ) (a : ℚ), (∃ n : ℤ, a = n) → (∀ o ∈ l, ∃ n : ℤ, f o = n) →
      ∃ n : ℤ, l.foldl (fun b o => max b (f o)) a = n := by
  intro l
  induction l with
  | nil => intro a ha _; simpa using ha
  | cons o rest ih =>
    intro a ha hl
    simp only [List.foldl_cons]
    apply ih
    · rcases ha with ⟨n, rfl⟩
      rcases hl o (by simp) with ⟨m, hm⟩
      rcases max_cases ((n : ℚ)) (f o) with ⟨h, _⟩ | ⟨h, _⟩
      · exact ⟨n, h⟩
      · exact ⟨m, by rw [h, hm]⟩
    · intro p hp
      exact hl p (by simp [hp])

/-- python round at nd decimals is the identity on integers. -/
theorem pyRound_int (nd : ℕ) (n : ℤ) : pyRound nd ((n : ℚ)) = (n : ℚ) := by
  have hs : (n : ℚ) * 10 ^ nd = ((n * 10 ^ nd : ℤ) : ℚ) := by push_cast; ring
  have h0 : ((10 : ℚ)) ^ nd ≠ 0 := by positivity
  simp only [pyRound, hs, Int.floor_intCast, sub_self]
  rw [if_pos (by norm_num), div_eq_iff h0]
  push_cast
  ring

theorem bounceLoop_fst (f : ℕ → ℚ) (g : ℕ → BounceDetails) (brk : ℕ → Bool) :
    ∀ (l : List ℕ) (acc : ℚ × BounceDetails), (∀ o ∈ l, brk o = false) →
      (bounceLoop f g brk l acc).1 = l.foldl (fun a o => max a (f o)) acc.1 := by
  intro l
  induction l with
  | nil => intro acc _; rfl
  | cons o rest ih =>
    intro acc hb
    have hbo : brk o = false := hb o (by simp)
    have hbr : ∀ p ∈ rest, brk p = false := fun p hp => hb p (by simp [hp])
    have hstep : bounceLoop f g brk (o :: rest) acc
        = bounceLoop f g brk rest (if acc.1 < f o then (f o, g o) else acc) := by
      simp [bounceLoop, hbo]
    rw [hstep, List.foldl_cons]
    by_cases hlt : acc.1 < f o
    · rw [if_pos hlt, ih _ hbr]
      congr 1
      exact (max_eq_right hlt.le).symm
    · rw [if_neg hlt, ih _ hbr]
      congr 1
      exact (max_eq_left (not_lt.mp hlt)).symm

/-- The bounce loop either never updates (every score at most the initial
one) or ends on the day of some offset o that strictly beats the starting
score and every offset scanned before it. -/
theorem bounceLoop_cases (f : ℕ → ℚ) (g : ℕ → BounceDetails) (brk : ℕ → Bool) :
    ∀ (l : List ℕ) (acc : ℚ × BounceDetails), (∀ o ∈ l, brk o = false) →
      (bounceLoop f g brk l acc = acc ∧ ∀ o ∈ l, f o ≤ acc.1)
      ∨ (∃ l1 o l2, l = l1 ++ o :: l2
          ∧ (bounceLoop f g brk l acc).2 = g o
          ∧ (bounceLoop f g brk l acc).1 = f o
          ∧ acc.1 < f o
          ∧ (∀ p ∈ l1, f p < f o)) := by
  intro l
  induction l with
  | nil => intro acc _; exact Or.inl ⟨rfl, by simp⟩
  | cons o rest ih =>
    intro acc hb
    have hbo : brk o = false := hb o (by simp)
    have hbr : ∀ p ∈ rest, brk p = false := fun p hp => hb p (by simp [hp])
    have hstep : bounceLoop f g brk (o :: rest) acc
        = bounceLoop f g brk rest (if acc.1 < f o then (f o, g o) else acc) := by
      simp [bounceLoop, hbo]
    by_cases hlt : acc.1 < f o
    · rw [if_pos hlt] at hstep
      rcases ih ((f o, g o)) hbr with ⟨heq, hle⟩ | ⟨l1, ob, l2, hdec, h2, h1, hgt, hl1⟩
      · refine Or.inr ⟨[], o, rest, by simp, ?_, ?_, hlt, by simp⟩
        · rw [hstep, heq]
        · rw [hstep, heq]
      · refine Or.inr ⟨o :: l1, ob, l2, by simp [hdec], ?_, ?_, hlt.trans hgt, ?_⟩
        · rw [hstep]; exact h2
        · rw [hstep]; exact h1
        · intro p hp
          rcases List.mem_cons.mp hp with rfl | hp2
          · exact hgt
          · exact hl1 p hp2
    · rw [if_neg hlt] at hstep
      rcases ih acc hbr with ⟨heq, hle⟩ | ⟨l1, ob, l2, hdec, h2, h1, hgt, hl1⟩
      · refine Or.inl ⟨by rw [hstep]; exact heq, ?_⟩
        intro p hp
        rcases List.mem_cons.mp hp with rfl | hp2
        · exact not_lt.mp hlt
        · exact hle p hp2
      · refine Or.inr ⟨o :: l1, ob, l2, by simp [hdec], ?_, ?_, hgt, ?_⟩
        · rw [hstep]; exact h2
        · rw [hstep]; exact h1
        · intro p hp
          rcases List.mem_cons.mp hp with rfl | hp2
          · exact lt_of_le_of_lt (not_lt.mp hlt) hgt
          · exact hl1 p hp2

theorem ite_weight_nonneg (b : Bool) (w : ℚ) (hw : 0 ≤ w) :
    0 ≤ (if b then w else 0) := by
  cases b <;> simpa

theorem ite_weight_le (b : Bool) (w : ℚ) (hw : 0 ≤ w) : (if b then w else 0) ≤ w := by
  cases b <;> simp [hw]

theorem ite_int (b : Bool) (w : ℚ) (hw : ∃ n : ℤ, w = n) :
    ∃ m : ℤ, (if b then w else 0) = m := by
  cases b
  · exact ⟨0, by simp⟩
  · simpa using hw

theorem add_int {a b : ℚ} (ha : ∃ n : ℤ, a = n) (hb : ∃ n : ℤ, b = n) :
    ∃ n : ℤ, a + b = n := by
  rcases ha with ⟨n, rfl⟩
  rcases hb with ⟨m, rfl⟩
  exact ⟨n + m, by push_cast; ring⟩

theorem dayScore_nonneg (sq : ℚ → ℚ) (hist : Hist) (o : ℕ) :
    0 ≤ dayScore sq defaultTech hist o := by
  unfold dayScore
  have e1 := ite_weight_nonneg (condRsiRev defaultTech hist o) defaultTech.scRsiRev
    (by norm_num [defaultTech])
  have e2 := ite_weight_nonneg (condRsiDep defaultTech hist o) defaultTech.scRsiDep
    (by norm_num [defaultTech])
  have e3 := ite_weight_nonneg (condBb sq defaultTech hist o) defaultTech.scBb
    (by norm_num [defaultTech])
  have e4 := ite_weight_nonneg (condVol defaultTech hist o) defaultTech.scVol
    (by norm_num [defaultTech])
  have e5 := ite_weight_nonneg (condPrice hist o) defaultTech.scPrice
    (by norm_num [defaultTech])
  linarith

theorem dayScore_le_100 (sq : ℚ → ℚ) (hist : Hist) (o : ℕ) :
    dayScore sq defaultTech hist o ≤ 100 := by
  unfold dayScore
  have e1 := ite_weight_le (condRsiRev defaultTech hist o) defaultTech.scRsiRev
    (by norm_num [defaultTech])
  have e2 := ite_weight_le (condRsiDep defaultTech hist o) defaultTech.scRsiDep
    (by norm_num [defaultTech])
  have e3 := ite_weight_le (condBb sq defaultTech hist o) defaultTech.scBb
    (by norm_num [defaultTech])
  have e4 := ite_weight_le (condVol defaultTech hist o) defaultTech.scVol
    (by norm_num [defaultTech])
  have e5 := ite_weight_le (condPrice hist o) defaultTech.scPrice
    (by norm_num [defaultTech])
  have hw : defaultTech.scRsiRev + defaultTech.scRsiDep + defaultTech.scBb
      + defaultTech.scVol + defaultTech.scPrice = 100 := by norm_num [defaultTech]
  linarith

theorem dayScore_int (sq : ℚ → ℚ) (hist : Hist) (o : ℕ) :
    ∃ n : ℤ, dayScore sq defaultTech hist o = n := by
  unfold dayScore
  exact add_int (add_int (add_int (add_int
    (ite_int _ _ ⟨40, by norm_num [defaultTech]⟩)
    (ite_int _ _ ⟨15, by norm_num [defaultTech]⟩))
    (ite_int _ _ ⟨25, by norm_num [defaultTech]⟩))
    (ite_int _ _ ⟨10, by norm_num [defaultTech]⟩))
    (ite_int _ _ ⟨10, by norm_num [defaultTech]⟩)

/-- Under the default weights a zero day score forces every sub-condition
flag off, so the recorded details agree with the all-false record. -/
theorem dayScore_zero_bd (sq : ℚ → ℚ) (hist : Hist) (o : ℕ)
    (h : dayScore sq defaultTech hist o = 0) :
    dayBD sq defaultTech hist o = ⟨false, false, false, false, false, o⟩ := by
  have e1 := ite_weight_nonneg (condRsiRev defaultTech hist o) defaultTech.scRsiRev
    (by norm_num [defaultTech])
  have e2 := ite_weight_nonneg (condRsiDep defaultTech hist o) defaultTech.scRsiDep
    (by norm_num [defaultTech])
  have e3 := ite_weight_nonneg (condBb sq defaultTech hist o) defaultTech.scBb
    (by norm_num [defaultTech])
  have e4 := ite_weight_nonneg (condVol defaultTech hist o) defaultTech.scVol
    (by norm_num [defaultTech])
  have e5 := ite_weight_nonneg (condPrice hist o) defaultTech.scPrice
    (by norm_num [defaultTech])
  unfold dayScore at h
  have f1 : condRsiRev defaultTech hist o = false := by
    cases hc : condRsiRev defaultTech hist o
    · rfl
    · rw [hc] at h
      norm_num [defaultTech] at h e2 e3 e4 e5
      linarith
  have f2 : condRsiDep defaultTech hist o = false := by
    cases hc : condRsiDep defaultTech hist o
    · rfl
    · rw [hc] at h
      norm_num [defaultTech] at h e1 e3 e4 e5
      linarith
  have f3 : condBb sq defaultTech hist o = false := by
    cases hc : condBb sq defaultTech hist o
    · rfl
    · rw [hc] at h
      norm_num [defaultTech] at h e1 e2 e4 e5
      linarith
  have f4 : condVol defaultTech hist o = false := by
    cases hc : condVol defaultTech hist o
    · rfl
    · rw [hc] at h
      norm_num [defaultTech] at h e1 e2 e3 e5
      linarith
  have f5 : condPrice hist o = false := by
    cases hc : condPrice hist o
    · rfl
    · rw [hc] at h
      norm_num [defaultTech] at h e1 e2 e3 e4
      linarith
  unfold dayBD
  rw [f1, f2, f3, f4, f5]

theorem compute_rsi_length (close : List ℚ) (period : ℕ) :
    (compute_rsi close period).length = close.length := by
  simp [compute_rsi]

/-- A decomposition of range 5 around a distinguished element determines
the element and the prefix. -/
theorem range5_decomp {l1 l2 : List ℕ} {o : ℕ} (h : List.range 5 = l1 ++ o :: l2) :
    o = l1.length ∧ l1 = List.range o := by
  have hlen : l1.length + (l2.length + 1) = 5 := by
    have h2 := congrArg List.length h
    simp [List.length_append] at h2
    omega
  have hl1len : l1.length < 5 := by omega
  have hgo : (List.range 5)[l1.length]? = some o := by
    rw [h, List.getElem?_append_right (le_refl l1.length)]
    simp
  rw [List.getElem?_range hl1len] at hgo
  have ho : o = l1.length := by
    injection hgo with hgo
    exact hgo.symm
  refine ⟨ho, ?_⟩
  have ht : (List.range 5).take l1.length = l1 := by
    rw [h]
    exact List.take_left l1 (o :: l2)
  rw [List.take_range, min_eq_left hl1len.le] at ht
  rw [ho]
  exact ht.symm

/-- C8: with at least 200 bars and the default thresholds, the reported
bounce_score is in [0,100] and equals the maximum (not the sum) of the
per-day sub-condition scores over the 5 most recent offsets; the
reported bounce_details (hence lookback_day) come from the first offset
attaining that maximum scanning from offset 0 upward; and bounce_signal
holds iff the maximum reaches the default minimum 40. -/
theorem claim_C8 (sq : ℚ → ℚ) (hist : Hist) (h200 : 200 ≤ hist.close.length) :
    (0 ≤ (detect_pullback_in_uptrend sq defaultTech hist).bounce_score
      ∧ (detect_pullback_in_uptrend sq defaultTech hist).bounce_score ≤ 100)
    ∧ (∀ o < 5, dayScore sq defaultTech hist o
        ≤ (detect_pullback_in_uptrend sq defaultTech hist).bounce_score)
    ∧ (∃ o, o < 5 ∧ dayScore sq defaultTech hist o
          = (detect_pullback_in_uptrend sq defaultTech hist).bounce_score
        ∧ (detect_pullback_in_uptrend sq defaultTech hist).bounce_details
          = dayBD sq defaultTech hist o
        ∧ ∀ p, p < o → dayScore sq defaultTech hist p < dayScore sq defaultTech hist o)
    ∧ ((detect_pullback_in_uptrend sq defaultTech hist).bounce_signal = true
        ↔ (40 : ℚ) ≤ (detect_pullback_in_uptrend sq defaultTech hist).bounce_score) := by
  have hnot : ¬ hist.close.length < 200 := not_lt.mpr h200
  have hdet : detect_pullback_in_uptrend sq defaultTech hist = mainReport sq defaultTech hist := by
    unfold detect_pullback_in_uptrend
    rw [if_neg hnot]
  have hbrk : ∀ o ∈ List.range 5,
      (fun o => decide (hist.close.length ≤ o + 1
        ∨ (compute_rsi hist.close 14).length ≤ o + 1)) o = false := by
    intro o ho
    rw [List.mem_range] at ho
    rw [compute_rsi_length]
    simp only [decide_eq_false_iff_not]
    omega
  have hfst : (bounceRes sq defaultTech hist).1
      = (List.range 5).foldl (fun a o => max a (dayScore sq defaultTech hist o)) 0 := by
    unfold bounceRes
    exact bounceLoop_fst _ _ _ _ _ hbrk
  have hSint : ∃ n : ℤ, (bounceRes sq defaultTech hist).1 = n := by
    rw [hfst]
    exact foldl_max_int _ _ _ ⟨0, by norm_num⟩ (fun o _ => dayScore_int sq hist o)
  have hround : pyRound 2 (bounceRes sq defaultTech hist).1
      = (bounceRes sq defaultTech hist).1 := by
    rcases hSint with ⟨n, hn⟩
    rw [hn, pyRound_int]
  have hbs : (detect_pullback_in_uptrend sq defaultTech hist).bounce_score
      = (bounceRes sq defaultTech hist).1 := by
    rw [hdet]
    show pyRound 2 (bounceRes sq defaultTech hist).1 = (bounceRes sq defaultTech hist).1
    exact hround
  have hbd : (detect_pullback_in_uptrend sq defaultTech hist).bounce_details
      = (bounceRes sq defaultTech hist).2 := by
    rw [hdet]
    rfl
  have h40 : defaultTech.bounceMin = (40 : ℚ) := by norm_num [defaultTech]
  have hsig : (detect_pullback_in_uptrend sq defaultTech hist).bounce_signal
      = decide ((40 : ℚ) ≤ (bounceRes sq defaultTech hist).1) := by
    rw [hdet]
    show decide (defaultTech.bounceMin ≤ (bounceRes sq defaultTech hist).1) = _
    rw [h40]
  refine ⟨⟨?_, ?_⟩, ?_, ?_, ?_⟩
  · rw [hbs, hfst]
    exact foldl_max_init_le _ _ _
  · rw [hbs, hfst]
    exact foldl_max_le _ _ _ _ (by norm_num) (fun o _ => dayScore_le_100 sq hist o)
  · intro o ho
    rw [hbs, hfst]
    exact le_foldl_max _ _ _ o (List.mem_range.mpr ho)
  · rcases bounceLoop_cases (dayScore sq defaultTech hist) (dayBD sq defaultTech hist)
        (fun o => decide (hist.close.length ≤ o + 1
          ∨ (compute_rsi hist.close 14).length ≤ o + 1))
        (List.range 5) (0, defaultBD) hbrk with
      ⟨heq, hle⟩ | ⟨l1, o, l2, hdec, h2, h1, hgt, hl1⟩
    · have hres : bounceRes sq defaultTech hist = (0, defaultBD) := heq
      have hle0 : dayScore sq defaultTech hist 0 ≤ 0 := by
        simpa using hle 0 (by simp)
      have hz : dayScore sq defaultTech hist 0 = 0 :=
        le_antisymm hle0 (dayScore_nonneg sq hist 0)
      refine ⟨0, by norm_num, ?_, ?_, ?_⟩
      · rw [hz, hbs, hres]
      · rw [hbd, hres, dayScore_zero_bd sq hist 0 hz]
        rfl
      · intro p hp
        exact absurd hp (Nat.not_lt_zero p)
    · obtain ⟨ho_eq, hl1range⟩ := range5_decomp hdec
      have ho5 : o < 5 := by
        have hmem : o ∈ List.range 5 := by
          rw [hdec]
          exact List.mem_append_right _ (List.mem_cons_self _ _)
        simpa [List.mem_range] using hmem
      have hfo : (bounceRes sq defaultTech hist).1 = dayScore sq defaultTech hist o := h1
      have hfo2 : (bounceRes sq defaultTech hist).2 = dayBD sq defaultTech hist o := h2
      refine ⟨o, ho5, ?_, ?_, ?_⟩
      · rw [hbs, hfo]
      · rw [hbd, hfo2]
      · intro p hp
        exact hl1 p (by rw [hl1range]; exact List.mem_range.mpr hp)
  · rw [hbs, hsig]
    exact decide_eq_true_iff

/-- A 200-bar constant history for the C8 witness. -/
def hist200 : Hist := ⟨List.replicate 200 (100 : ℚ), List.replicate 200 (1 : ℚ)⟩

/-- Witness for C8 at the concrete 200-bar history (sqrt instantiated as
the constant-zero function, which the theorem quantifies over). -/
theorem claim_C8_witness :
    200 ≤ hist200.close.length
    ∧ ((0 ≤ (detect_pullback_in_uptrend (fun _ => 0) defaultTech hist200).bounce_score
      ∧ (detect_pullback_in_uptrend (fun _ => 0) defaultTech hist200).bounce_score ≤ 100)
    ∧ (∀ o < 5, dayScore (fun _ => 0) defaultTech hist200 o
        ≤ (detect_pullback_in_uptrend (fun _ => 0) defaultTech hist200).bounce_score)
    ∧ (∃ o, o < 5 ∧ dayScore (fun _ => 0) defaultTech hist200 o
          = (detect_pullback_in_uptrend (fun _ => 0) defaultTech hist200).bounce_score
        ∧ (detect_pullback_in_uptrend (fun _ => 0) defaultTech hist200).bounce_details
          = dayBD (fun _ => 0) defaultTech hist200 o
        ∧ ∀ p, p < o → dayScore (fun _ => 0) defaultTech hist200 p
            < dayScore (fun _ => 0) defaultTech hist200 o)
    ∧ ((detect_pullback_in_uptrend (fun _ => 0) defaultTech hist200).bounce_signal = true
        ↔ (40 : ℚ) ≤ (detect_pullback_in_uptrend (fun _ => 0) defaultTech hist200).bounce_score)) :=
  have hlen : 200 ≤ hist200.close.length := by
    show (200 : ℕ) ≤ (List.replicate 200 (100 : ℚ)).length
    rw [List.length_replicate]
  ⟨hlen, claim_C8 (fun _ => 0) hist200 hlen⟩

end StockSkills
